import Mathlib

/-!
Shallow embedding of the prayer-time scheduling and triggering core of
`src/app/server.js` (Athan Center).

Conventions of the embedding:
* a calendar date (`"YYYY-MM-DD"` string in the source, compared by equality
  and lexicographic order) is an abstract day number `Nat`;
* a time of day (`"HH:MM"` string, compared lexicographically, or parsed to
  minutes by `check-athan-time`) is minutes since midnight, a `Nat`;
* an instant (`Date` object / `Date.now()` milliseconds) is either
  `date * 1440 + time` minutes (trigger arming) or an `Int` of milliseconds
  (drift monitor), matching what the corresponding source site compares;
* SQLite tables are lists of row structures; `SELECT ... LIMIT 1` with an
  `ORDER BY` is a fold picking the minimal row; `UPDATE ... WHERE` is a map.
-/

namespace AthanCenter

/-- The five canonical daily prayers (`mainPrayers` in server.js). -/
def mainPrayers : List String := ["Fajr", "Dhuhr", "Asr", "Maghrib", "Isha"]

/-- Reserved synthetic event names that bypass the authorization checks in
`playAthan` (server.js line 522). -/
def specialEvents : List String := ["Startup", "PageLoad", "Test"]

/-- A row of the `prayers` table (`date`, `prayer_name`, `prayer_time`).
The table has a `UNIQUE(date, prayer_name)` constraint. -/
structure PrayerRow where
  date : Nat
  prayer_name : String
  prayer_time : Nat
deriving DecidableEq

/-- The fire instant of a calendar entry, in minutes:
`new Date(date + "T" + prayer_time + ":00")` in `scheduleAthanCalls`. -/
def instantOf (r : PrayerRow) : Nat := r.date * 1440 + r.prayer_time

/-- A row of the `prayer_schedule` matrix table
(`prayer_name`, `day_of_week` with 0=Monday, `enabled` 0/1). -/
structure ScheduleCell where
  prayer_name : String
  day_of_week : Nat
  enabled : Nat
deriving DecidableEq

/-- The singleton `skip_next` table row: the one-shot mute flag plus the
bookkeeping of which (prayer, date) it last consumed. -/
structure SkipNext where
  skip : Nat
  last_skipped_prayer : Option String
  last_skipped_date : Option Nat
deriving DecidableEq

/-- A row of the `muted_weekdays` table (0=Sunday JS day numbering). -/
structure WeekdayMuteRow where
  weekday : Nat
  muted : Nat
deriving DecidableEq

/-- The persisted state read by the scheduling/authorization core:
the `prayers`, `prayer_schedule`, `skip_next` and `muted_weekdays` tables,
plus the `audio_output` setting (`"server"`, `"browser"` or `"both"`). -/
structure DB where
  prayers : List PrayerRow
  prayer_schedule : List ScheduleCell
  skip_next : SkipNext
  muted_weekdays : List WeekdayMuteRow
  audio_output : String
deriving DecidableEq

/-- `SELECT enabled FROM prayer_schedule WHERE prayer_name = ? AND day_of_week = ?`
(`.get`, i.e. the first matching row if any). -/
def scheduleFind (sched : List ScheduleCell) (p : String) (d : Nat) : Option ScheduleCell :=
  sched.find? (fun c => c.prayer_name == p && c.day_of_week == d)

/-- The schedule-matrix veto used by both `playAthan` and `check-athan-time`:
deny only when a row exists and `scheduleEntry.enabled === 0`. -/
def scheduleDisabled (sched : List ScheduleCell) (p : String) (d : Nat) : Bool :=
  match scheduleFind sched p d with
  | some c => c.enabled == 0
  | none => false

/-- `SELECT COUNT(*) FROM prayer_schedule WHERE prayer_name = ? AND enabled = 0`. -/
def disabledCount (sched : List ScheduleCell) (p : String) : Nat :=
  (sched.filter (fun c => c.prayer_name == p && c.enabled == 0)).length

/-- All matrix cells of one prayer
(`SELECT * FROM prayer_schedule WHERE prayer_name = ?`). -/
def cellsFor (sched : List ScheduleCell) (p : String) : List ScheduleCell :=
  sched.filter (fun c => c.prayer_name == p)

/-- `UPDATE prayer_schedule SET enabled = ? WHERE prayer_name = ? AND day_of_week = ?`. -/
def setCell (sched : List ScheduleCell) (p : String) (d : Nat) (e : Nat) : List ScheduleCell :=
  sched.map (fun c => if c.prayer_name == p && c.day_of_week == d then { c with enabled := e } else c)

/-- Outcome of the `playAthan` authorization checks (server.js lines 524-548). -/
inductive Decision where
  | allow : Decision
  | denySchedule : Decision
  | denyOneShot : Decision
deriving DecidableEq

/-- The authorization part of `playAthan(prayerName)` (server.js lines 519-549):
special events bypass everything; otherwise the schedule matrix is checked
first, then the one-shot `skip_next` flag, which is consumed (cleared and the
(prayer, date) recorded as last skipped) when it denies.  `currentDate` is
the date this path records, which in the source is the UTC date from
`new Date().toISOString().split('T')[0]` (line 540) — not necessarily the
local calendar date used elsewhere.  Returns the decision together with the
resulting `skip_next` row. -/
def playAthanAuth (db : DB) (p : String) (dayIndex currentDate : Nat) : Decision × SkipNext :=
  if specialEvents.contains p then (Decision.allow, db.skip_next)
  else if scheduleDisabled db.prayer_schedule p dayIndex then (Decision.denySchedule, db.skip_next)
  else if db.skip_next.skip == 1 then
    (Decision.denyOneShot,
      { skip := 0, last_skipped_prayer := some p, last_skipped_date := some currentDate })
  else (Decision.allow, db.skip_next)

/-- What `playAthan` does after its authorization checks (server.js lines 551-559):
with `audio_output === 'browser'` no server playback happens. -/
inductive PlayOutcome where
  | playsOnServer : PlayOutcome
  | browserOnly : PlayOutcome
  | deniedSchedule : PlayOutcome
  | deniedOneShot : PlayOutcome
deriving DecidableEq

/-- The full play-or-skip outcome of `playAthan` (authorization plus the
`audio_output` target check), with the resulting `skip_next` row. -/
def playAthanRun (db : DB) (p : String) (dayIndex currentDate : Nat) : PlayOutcome × SkipNext :=
  match playAthanAuth db p dayIndex currentDate with
  | (Decision.denySchedule, sk) => (PlayOutcome.deniedSchedule, sk)
  | (Decision.denyOneShot, sk) => (PlayOutcome.deniedOneShot, sk)
  | (Decision.allow, sk) =>
    if db.audio_output == "browser" then (PlayOutcome.browserOnly, sk)
    else (PlayOutcome.playsOnServer, sk)

/-- The fire-window test of `check-athan-time` (server.js line 2076):
`diff >= 0 && diff <= 1` where `diff = currentMinutes - prayerMinutes`. -/
def inWindow (nowTime t : Nat) : Bool :=
  decide ((0 : Int) ≤ (nowTime : Int) - (t : Int)) && decide ((nowTime : Int) - (t : Int) ≤ 1)

/-- The `last_skipped` guard of `check-athan-time` (server.js line 2093):
`skipNext.last_skipped_prayer === prayer.prayer_name && skipNext.last_skipped_date === currentDate`. -/
def lastSkippedMatches (sk : SkipNext) (p : String) (currentDate : Nat) : Bool :=
  sk.last_skipped_prayer == some p && sk.last_skipped_date == some currentDate

/-- The per-prayer rule set applied by `check-athan-time` inside the fire
window: skip flag, last-skipped record, then schedule matrix. -/
def checkGate (db : DB) (p : String) (dayIndex currentDate : Nat) : Bool :=
  !(db.skip_next.skip == 1) && !(lastSkippedMatches db.skip_next p currentDate) &&
    !(scheduleDisabled db.prayer_schedule p dayIndex)

/-- Insertion into a list sorted by `prayer_time` (models `ORDER BY prayer_time`). -/
def insertByTime (r : PrayerRow) : List PrayerRow → List PrayerRow
  | [] => [r]
  | x :: xs => if r.prayer_time ≤ x.prayer_time then r :: x :: xs else x :: insertByTime r xs

/-- Sorting by `prayer_time` (models `ORDER BY prayer_time`). -/
def sortByTime : List PrayerRow → List PrayerRow
  | [] => []
  | x :: xs => insertByTime x (sortByTime xs)

/-- Today's canonical prayers, as queried by `check-athan-time`
(`WHERE date = ? AND prayer_name IN (five) ORDER BY prayer_time`). -/
def todaysMainPrayers (db : DB) (currentDate : Nat) : List PrayerRow :=
  sortByTime (db.prayers.filter
    (fun r => r.date == currentDate && mainPrayers.contains r.prayer_name))

/-- The `for (const prayer of prayers)` loop of `check-athan-time`
(server.js lines 2069-2118): for the first prayer found inside the fire
window, answer according to the skip flag, the last-skipped record and the
schedule matrix; the loop returns immediately in every one of those branches. -/
def checkLoop (db : DB) (nowTime dayIndex currentDate : Nat) : List PrayerRow → Option String
  | [] => none
  | r :: rest =>
    if inWindow nowTime r.prayer_time then
      if db.skip_next.skip == 1 then none
      else if lastSkippedMatches db.skip_next r.prayer_name currentDate then none
      else if scheduleDisabled db.prayer_schedule r.prayer_name dayIndex then none
      else some r.prayer_name
    else checkLoop db nowTime dayIndex currentDate rest

/-- `GET /api/check-athan-time` (server.js lines 2034-2124): `some p` models
`{shouldPlay: true, prayerName: p}`, `none` models `{shouldPlay: false}`.
With `audio_output === 'server'` the endpoint reports false unconditionally. -/
def checkAthanTime (db : DB) (nowTime dayIndex currentDate : Nat) : Option String :=
  if db.audio_output == "server" then none
  else checkLoop db nowTime dayIndex currentDate (todaysMainPrayers db currentDate)

/-- `SELECT * FROM prayers ... ORDER BY prayer_time LIMIT 1`:
the first row of minimal `prayer_time`. -/
def minByTime : List PrayerRow → Option PrayerRow
  | [] => none
  | r :: rest =>
    match minByTime rest with
    | none => some r
    | some m => if r.prayer_time ≤ m.prayer_time then some r else some m

/-- Today's strictly-future canonical prayers
(`WHERE date = ? AND prayer_time > ? AND prayer_name IN (five)`),
shared by `/api/prayers/next/upcoming`, `/api/skip-next` and `/api/mute-next-athan`. -/
def todayFutureList (db : DB) (today nowTime : Nat) : List PrayerRow :=
  db.prayers.filter
    (fun r => r.date == today && decide (nowTime < r.prayer_time) && mainPrayers.contains r.prayer_name)

/-- Tomorrow's canonical prayers (`WHERE date = ? AND prayer_name IN (five)`). -/
def tomorrowList (db : DB) (tomorrow : Nat) : List PrayerRow :=
  db.prayers.filter (fun r => r.date == tomorrow && mainPrayers.contains r.prayer_name)

/-- `GET /api/prayers/next/upcoming` (server.js lines 882-935): the earliest
strictly-future canonical prayer of today, else the earliest canonical prayer
of tomorrow, else null. -/
def nextUpcoming (db : DB) (today tomorrow nowTime : Nat) : Option PrayerRow :=
  match minByTime (todayFutureList db today nowTime) with
  | some r => some r
  | none => minByTime (tomorrowList db tomorrow)

/-- `scheduleAthanCalls` (server.js lines 334-380): cancel every previously
armed trigger (the old jobs are discarded), select today's and tomorrow's
canonical prayers, and arm one trigger per entry whose fire instant is
strictly in the future (`prayerDateTime > now`); past entries are skipped.
The result is the armed-trigger list. -/
def rearm (oldJobs : List PrayerRow) (db : DB) (today tomorrow nowInstant : Nat) :
    List PrayerRow :=
  ((db.prayers.filter
      (fun r => (r.date == today || r.date == tomorrow) && mainPrayers.contains r.prayer_name)).filter
    (fun r => decide (nowInstant < instantOf r)))

/-- A trigger key: the filter counting armed triggers for one (date, prayer) pair. -/
def keyMatches (d : Nat) (p : String) (r : PrayerRow) : Bool :=
  r.date == d && r.prayer_name == p

/-- Number of armed triggers for a given (date, prayer) pair. -/
def countKey (l : List PrayerRow) (d : Nat) (p : String) : Nat :=
  (l.filter (keyMatches d p)).length

/-- The `UNIQUE(date, prayer_name)` constraint of the `prayers` table. -/
def distinctKeys (l : List PrayerRow) : Prop :=
  l.Pairwise (fun a b => ¬(a.date = b.date ∧ a.prayer_name = b.prayer_name))

instance keyClash_decidable : DecidableRel
    (fun a b : PrayerRow => ¬(a.date = b.date ∧ a.prayer_name = b.prayer_name)) :=
  fun a b => inferInstanceAs (Decidable ¬(a.date = b.date ∧ a.prayer_name = b.prayer_name))

instance distinctKeys_decidable (l : List PrayerRow) : Decidable (distinctKeys l) :=
  inferInstanceAs (Decidable (l.Pairwise
    (fun a b : PrayerRow => ¬(a.date = b.date ∧ a.prayer_name = b.prayer_name))))

/-- `INSERT OR REPLACE INTO prayers (date, prayer_name, prayer_time)`. -/
def insertOrReplace (tbl : List PrayerRow) (r : PrayerRow) : List PrayerRow :=
  (tbl.filter (fun x => !(x.date == r.date && x.prayer_name == r.prayer_name))) ++ [r]

/-- `fetchPrayerTimes` (server.js lines 271-331) with the network fetch and ICS
parse abstracted as an `Except` input: when the fetch throws, the catch block
reports failure and the `prayers` table is untouched; on success, entries from
today onward are deleted and the fetched events dated within the next three
months are inserted.  Returns the reported success flag and the resulting
`prayers` table. -/
def fetchPrayerTimes (tbl : List PrayerRow) (todayD threeMonthsD : Nat)
    (fetched : Except String (List PrayerRow)) : Bool × List PrayerRow :=
  match fetched with
  | Except.error _ => (false, tbl)
  | Except.ok events =>
    let kept := tbl.filter (fun r => decide (r.date < todayD))
    (true,
      (events.filter (fun e => decide (todayD ≤ e.date) && decide (e.date ≤ threeMonthsD))).foldl
        insertOrReplace kept)

/-- `GET /api/prayer-settings` view of one prayer (server.js lines 975-1010):
`enabled = 1` when the count of its disabled matrix cells is zero, else 0. -/
def prayerEnabledView (sched : List ScheduleCell) (p : String) : Nat :=
  if disabledCount sched p == 0 then 1 else 0

/-- `UPDATE skip_next SET skip = 1 WHERE id = 1` (the success branch of
`/api/skip-next` and `/api/mute-next-athan`). -/
def setSkipFlag (db : DB) : DB :=
  { db with skip_next := { db.skip_next with skip := 1 } }

/-- `POST /api/skip-next` / `GET /api/mute-next-athan` (server.js lines
1141-1270): find the next upcoming canonical prayer (today strictly-future,
else tomorrow's first); if it exists and is disabled on all 7 weekdays
(`disabledCount === 7`), reject without touching the flag; otherwise set the
one-shot mute flag.  `true` models the success response, `false` the
"already muted in general settings" rejection. -/
def skipNextEndpoint (db : DB) (today tomorrow nowTime : Nat) : Bool × DB :=
  match minByTime (todayFutureList db today nowTime) with
  | some np =>
    if disabledCount db.prayer_schedule np.prayer_name == 7 then (false, db)
    else (true, setSkipFlag db)
  | none =>
    match minByTime (tomorrowList db tomorrow) with
    | some fp =>
      if disabledCount db.prayer_schedule fp.prayer_name == 7 then (false, db)
      else (true, setSkipFlag db)
    | none => (true, setSkipFlag db)

/-- `expectedElapsed` of the drift-detection interval (server.js line 2243). -/
def expectedElapsedMs : Int := 10000

/-- The drift threshold (server.js line 2248): rearm when drift exceeds 5000 ms. -/
def driftThresholdMs : Int := 5000

/-- One step of the 10-second drift-detection interval (server.js lines
2241-2262): when `|actualElapsed - expectedElapsed|` exceeds the threshold,
`scheduleAthanCalls` is invoked (re-arming from the current calendar);
otherwise the armed jobs are left alone.  In both cases `lastSystemTime`
is updated to `now`.  Returns the armed jobs and the new `lastSystemTime`. -/
def driftMonitorStep (lastSystemTime nowMs : Int) (jobs : List PrayerRow) (db : DB)
    (today tomorrow nowInstant : Nat) : List PrayerRow × Int :=
  let actualElapsed := nowMs - lastSystemTime
  let timeDrift := |actualElapsed - expectedElapsedMs|
  if timeDrift > driftThresholdMs then (rearm jobs db today tomorrow nowInstant, nowMs)
  else (jobs, nowMs)

/-- An authorization check inside a fire window: the server-side firing path
(`playAthan` invoked by the armed trigger) or a client poll of
`/api/check-athan-time`. -/
inductive CheckKind where
  | server : CheckKind
  | poll : CheckKind
deriving DecidableEq

/-- Collapsed Allow/Deny conclusion of one authorization check. -/
inductive CheckResult where
  | allowed : CheckResult
  | denied : CheckResult
deriving DecidableEq

/-- Run one authorization check for prayer `p` against the persisted state:
a server check runs `playAthanAuth` (and persists its `skip_next` update),
a poll check asks `check-athan-time` whether `p` should play (read-only).
The two paths compute "today" differently in the source, so they receive
separate date arguments: `serverDate` is the date `playAthan` records as
`last_skipped_date`, taken from `new Date().toISOString()` — the UTC date
(server.js line 540) — while `localDate` is the date `check-athan-time`
queries and compares, taken from `formatDateLocal(now)` — the local date
(server.js lines 2052, 2093).  In a non-UTC deployment the two differ when
the fire window straddles the UTC date boundary. -/
def runCheck (db : DB) (p : String) (nowTime dayIndex serverDate localDate : Nat) :
    CheckKind → CheckResult × DB
  | CheckKind.server =>
    match playAthanAuth db p dayIndex serverDate with
    | (Decision.allow, sk) => (CheckResult.allowed, { db with skip_next := sk })
    | (_, sk) => (CheckResult.denied, { db with skip_next := sk })
  | CheckKind.poll =>
    (if checkAthanTime db nowTime dayIndex localDate == some p then CheckResult.allowed
     else CheckResult.denied, db)

/-- Run a sequence of authorization checks within one fire window, threading
the persisted state; returns the list of conclusions and the final state. -/
def runTrace (db : DB) (p : String) (nowTime dayIndex serverDate localDate : Nat) :
    List CheckKind → List CheckResult × DB
  | [] => ([], db)
  | k :: ks =>
    let step := runCheck db p nowTime dayIndex serverDate localDate k
    let rest := runTrace step.2 p nowTime dayIndex serverDate localDate ks
    (step.1 :: rest.1, rest.2)

/-- The fully-enabled 5×7 schedule matrix the server creates at startup. -/
def fullSchedule : List ScheduleCell :=
  (List.range 7).foldr (fun d acc => (mainPrayers.map (fun p => ⟨p, d, 1⟩)) ++ acc) []

/-- The default (all unmuted) `muted_weekdays` table. -/
def defaultMutedWeekdays : List WeekdayMuteRow :=
  (List.range 7).map (fun d => ⟨d, 0⟩)

/-- Concrete state: one-shot mute already consumed for (Fajr, day 0). -/
def dbLastSkipped : DB :=
  ⟨[⟨0, "Fajr", 300⟩], fullSchedule, ⟨0, some "Fajr", some 0⟩, defaultMutedWeekdays, "both"⟩

/-- Concrete state: one-shot mute armed, everything enabled. -/
def dbArmed : DB :=
  ⟨[⟨0, "Fajr", 300⟩], fullSchedule, ⟨1, none, none⟩, defaultMutedWeekdays, "both"⟩

/-- Concrete state: one-shot mute armed, Fajr at 05:00 on local day 1 in an
east-of-UTC deployment, where the UTC date at fire time is still day 0. -/
def dbBoundary : DB :=
  ⟨[⟨1, "Fajr", 300⟩], fullSchedule, ⟨1, none, none⟩, defaultMutedWeekdays, "both"⟩

/-- Concrete state: plain calendar (Fajr 06:30 and Dhuhr 12:45 today,
Fajr 06:31 tomorrow), nothing muted. -/
def dbPlain : DB :=
  ⟨[⟨0, "Fajr", 390⟩, ⟨0, "Dhuhr", 765⟩, ⟨1, "Fajr", 391⟩], fullSchedule,
    ⟨0, none, none⟩, defaultMutedWeekdays, "both"⟩

/-- `dbPlain` with every weekday marked muted in `muted_weekdays`. -/
def dbPlainMuted : DB :=
  { dbPlain with muted_weekdays := (List.range 7).map (fun d => ⟨d, 1⟩) }

theorem minByTime_eq_none {l : List PrayerRow} : minByTime l = none ↔ l = [] := by
  cases l with
  | nil => simp [minByTime]
  | cons a t =>
    rw [minByTime]
    constructor
    · intro h
      exfalso
      split at h
      · simp at h
      · split at h <;> simp at h
    · intro h
      simp at h

theorem minByTime_mem {l : List PrayerRow} {r : PrayerRow} (h : minByTime l = some r) :
    r ∈ l := by
  induction l with
  | nil => simp [minByTime] at h
  | cons a t ih =>
    rw [minByTime] at h
    split at h
    · injection h with h; subst h; exact List.mem_cons_self _ _
    · next m heq =>
      split at h
      · injection h with h; subst h; exact List.mem_cons_self _ _
      · injection h with h; subst h; exact List.mem_cons_of_mem _ (ih heq)

theorem minByTime_le {l : List PrayerRow} :
    ∀ {r : PrayerRow}, minByTime l = some r → ∀ s ∈ l, r.prayer_time ≤ s.prayer_time := by
  induction l with
  | nil => intro r h; simp [minByTime] at h
  | cons a t ih =>
    intro r h
    rw [minByTime] at h
    split at h
    · next heq =>
      have ht : t = [] := minByTime_eq_none.mp heq
      subst ht
      injection h with h; subst h
      intro s hs
      rcases List.mem_cons.mp hs with rfl | hs
      · exact le_refl _
      · simp at hs
    · next m heq =>
      split at h
      · next hle =>
        injection h with h; subst h
        intro s hs
        rcases List.mem_cons.mp hs with rfl | hs
        · exact le_refl _
        · exact le_trans hle (ih heq s hs)
      · next hle =>
        injection h with h; subst h
        intro s hs
        rcases List.mem_cons.mp hs with rfl | hs
        · exact le_of_not_le hle
        · exact ih heq s hs

theorem mem_insertByTime {y r : PrayerRow} {l : List PrayerRow} :
    y ∈ insertByTime r l ↔ y = r ∨ y ∈ l := by
  induction l with
  | nil => simp [insertByTime]
  | cons x xs ih =>
    rw [insertByTime]
    split
    · simp [List.mem_cons]
    · simp only [List.mem_cons, ih]
      tauto

theorem mem_sortByTime {y : PrayerRow} {l : List PrayerRow} : y ∈ sortByTime l ↔ y ∈ l := by
  induction l with
  | nil => simp [sortByTime]
  | cons x xs ih =>
    rw [sortByTime]
    simp only [mem_insertByTime, ih, List.mem_cons]

theorem checkLoop_sound {db : DB} {nowTime dayIndex currentDate : Nat}
    {l : List PrayerRow} {q : String}
    (h : checkLoop db nowTime dayIndex currentDate l = some q) :
    ∃ r ∈ l, r.prayer_name = q ∧ inWindow nowTime r.prayer_time = true ∧
      (db.skip_next.skip == 1) = false ∧
      lastSkippedMatches db.skip_next q currentDate = false ∧
      scheduleDisabled db.prayer_schedule q dayIndex = false := by
  induction l with
  | nil => simp [checkLoop] at h
  | cons r rest ih =>
    rw [checkLoop] at h
    by_cases hw : inWindow nowTime r.prayer_time = true
    · rw [if_pos hw] at h
      by_cases h1 : (db.skip_next.skip == 1) = true
      · rw [if_pos h1] at h; exact absurd h (by simp)
      · rw [if_neg h1] at h
        by_cases h2 : lastSkippedMatches db.skip_next r.prayer_name currentDate = true
        · rw [if_pos h2] at h; exact absurd h (by simp)
        · rw [if_neg h2] at h
          by_cases h3 : scheduleDisabled db.prayer_schedule r.prayer_name dayIndex = true
          · rw [if_pos h3] at h; exact absurd h (by simp)
          · rw [if_neg h3] at h
            injection h with h
            subst h
            exact ⟨r, List.mem_cons_self _ _, rfl, hw,
              Bool.eq_false_iff.mpr h1, Bool.eq_false_iff.mpr h2, Bool.eq_false_iff.mpr h3⟩
    · rw [if_neg hw] at h
      obtain ⟨r', hr', hrest⟩ := ih h
      exact ⟨r', List.mem_cons_of_mem _ hr', hrest⟩

theorem checkAthanTime_sound {db : DB} {nowTime dayIndex currentDate : Nat} {q : String}
    (h : checkAthanTime db nowTime dayIndex currentDate = some q) :
    ∃ r ∈ db.prayers, r.date = currentDate ∧ r.prayer_name = q ∧ q ∈ mainPrayers ∧
      inWindow nowTime r.prayer_time = true ∧
      (db.skip_next.skip == 1) = false ∧
      lastSkippedMatches db.skip_next q currentDate = false ∧
      scheduleDisabled db.prayer_schedule q dayIndex = false := by
  rw [checkAthanTime] at h
  by_cases hs : (db.audio_output == "server") = true
  · rw [if_pos hs] at h; exact absurd h (by simp)
  · rw [if_neg hs] at h
    obtain ⟨r, hrmem, hname, hwin, hrest⟩ := checkLoop_sound h
    rw [todaysMainPrayers, mem_sortByTime, List.mem_filter] at hrmem
    obtain ⟨hmem, hpred⟩ := hrmem
    rw [Bool.and_eq_true, beq_iff_eq] at hpred
    refine ⟨r, hmem, hpred.1, hname, ?_, hwin, hrest⟩
    have := hpred.2
    rw [List.contains] at this
    rw [← hname]
    exact (List.elem_iff).mp this

theorem checkAthanTime_none_of_skip {db : DB} {nowTime dayIndex currentDate : Nat}
    (h : db.skip_next.skip = 1) : checkAthanTime db nowTime dayIndex currentDate = none := by
  cases hc : checkAthanTime db nowTime dayIndex currentDate with
  | none => rfl
  | some q =>
    obtain ⟨r, _, _, _, _, _, hskip, _⟩ := checkAthanTime_sound hc
    simp [h] at hskip

theorem checkAthanTime_ne_of_lastSkipped {db : DB} {nowTime dayIndex currentDate : Nat}
    {p : String} (h : lastSkippedMatches db.skip_next p currentDate = true) :
    checkAthanTime db nowTime dayIndex currentDate ≠ some p := by
  intro hc
  obtain ⟨r, _, _, _, _, _, _, hlast, _⟩ := checkAthanTime_sound hc
  rw [h] at hlast
  exact Bool.true_eq_false.mp hlast

theorem mainPrayers_not_special {p : String} (h : p ∈ mainPrayers) :
    p ∉ specialEvents := by
  fin_cases h <;> decide

/-- Claim C1 (amended): whenever the client endpoint is consulted at all
(audio output not server-only) and the (date, prayer) pair is not the recorded
last-skipped pair, `playAthan`'s authorization and the per-prayer rule set of
`check-athan-time` reach the same Allow/Deny conclusion; and every positive
answer of `check-athan-time` passes that same rule set. -/
theorem claim1_gate_agreement (db : DB) (p : String) (dayIndex currentDate nowTime : Nat)
    (hcanon : p ∈ mainPrayers)
    (hlast : lastSkippedMatches db.skip_next p currentDate = false) :
    ((playAthanAuth db p dayIndex currentDate).1 = Decision.allow ↔
      checkGate db p dayIndex currentDate = true)
    ∧ (∀ q, checkAthanTime db nowTime dayIndex currentDate = some q →
        checkGate db q dayIndex currentDate = true) := by
  constructor
  · have hspec := mainPrayers_not_special hcanon
    by_cases hs : scheduleDisabled db.prayer_schedule p dayIndex = true
    · simp [playAthanAuth, checkGate, hspec, hlast, hs]
    · by_cases h1 : (db.skip_next.skip == 1) = true
      · simp [playAthanAuth, checkGate, hspec, hlast, hs, h1]
      · simp [playAthanAuth, checkGate, hspec, hlast, hs, h1]
  · intro q hq
    obtain ⟨r, _, _, _, _, _, h1, h2, h3⟩ := checkAthanTime_sound hq
    rw [checkGate, h1, h2, h3]
    rfl

/-- Witness for the amended C1 at a concrete state with the one-shot flag set. -/
theorem claim1_witness :
    ("Fajr" ∈ mainPrayers ∧ lastSkippedMatches dbArmed.skip_next "Fajr" 0 = false) ∧
      (((playAthanAuth dbArmed "Fajr" 0 0).1 = Decision.allow ↔
          checkGate dbArmed "Fajr" 0 0 = true)
        ∧ (∀ q, checkAthanTime dbArmed 300 0 0 = some q → checkGate dbArmed q 0 0 = true)) :=
  ⟨⟨by decide, rfl⟩, claim1_gate_agreement dbArmed "Fajr" 0 0 300 (by decide) rfl⟩

/-- Counterexample to C1 as stated: with the one-shot flag already consumed
for (Fajr, day 0) and the instant inside Fajr's fire window, the server-side
firing path allows playback while the polling endpoint reports Deny — the two
paths do not reach the same conclusion for every persisted state, and the
endpoint's extra last-skipped rule (and its server-only shortcut) have no
counterpart in `playAthan`. -/
theorem claim1_counterexample :
    (playAthanAuth dbLastSkipped "Fajr" 0 0).1 = Decision.allow ∧
      checkAthanTime dbLastSkipped 300 0 0 = none ∧
      dbLastSkipped.audio_output = "both" :=
  ⟨rfl, rfl, rfl⟩

theorem runTrace_consumed {db : DB} {p : String} {nowTime dayIndex serverDate localDate : Nat}
    {tr : List CheckKind}
    (hlast : lastSkippedMatches db.skip_next p localDate = true)
    (hns : CheckKind.server ∉ tr) :
    (∀ res ∈ (runTrace db p nowTime dayIndex serverDate localDate tr).1,
        res = CheckResult.denied)
    ∧ (runTrace db p nowTime dayIndex serverDate localDate tr).2 = db := by
  induction tr with
  | nil => exact ⟨by simp [runTrace], rfl⟩
  | cons k ks ih =>
    cases k with
    | server => exact absurd (List.mem_cons_self _ _) hns
    | poll =>
      have hbeq : (checkAthanTime db nowTime dayIndex localDate == some p) = false := by
        rw [beq_eq_false_iff_ne]
        exact checkAthanTime_ne_of_lastSkipped hlast
      have hns' : CheckKind.server ∉ ks := fun h => hns (List.mem_cons_of_mem _ h)
      obtain ⟨ihall, ihdb⟩ := ih hns'
      constructor
      · intro res hres
        simp only [runTrace, runCheck, hbeq, Bool.false_eq_true, if_false] at hres
        rcases List.mem_cons.mp hres with rfl | hres
        · rfl
        · exact ihall res hres
      · simp only [runTrace, runCheck]
        exact ihdb

/-- Claim C2 (amended): within one fire window of a canonical prayer that is
not schedule-disabled, starting from the one-shot flag set, when the date the
server records (the UTC date of `toISOString`) coincides with the date the
polling endpoint compares (the local date of `formatDateLocal`) — i.e. the
window does not straddle the UTC/local date boundary — a sequence of
authorization checks containing at most one server-side firing yields Deny at
every check; the consumption (flag cleared, (prayer, date) recorded) happens
exactly at the server-side firing check — when the trace contains the firing
the final state records exactly one consumption, and when it does not (only
client polls) the state is completely unchanged, polls never consuming. -/
theorem claim2_one_shot (db : DB) (p : String) (nowTime dayIndex serverDate localDate : Nat)
    (tr : List CheckKind)
    (hcanon : p ∈ mainPrayers)
    (hskip : db.skip_next.skip = 1)
    (hsched : scheduleDisabled db.prayer_schedule p dayIndex = false)
    (hdate : serverDate = localDate)
    (hone : (tr.filter (fun k => k == CheckKind.server)).length ≤ 1) :
    (∀ res ∈ (runTrace db p nowTime dayIndex serverDate localDate tr).1,
        res = CheckResult.denied)
    ∧ (CheckKind.server ∈ tr →
        (runTrace db p nowTime dayIndex serverDate localDate tr).2 =
          { db with skip_next :=
              { skip := 0, last_skipped_prayer := some p,
                last_skipped_date := some serverDate } })
    ∧ (CheckKind.server ∉ tr →
        (runTrace db p nowTime dayIndex serverDate localDate tr).2 = db) := by
  subst hdate
  induction tr with
  | nil =>
    refine ⟨by simp [runTrace], ?_, fun _ => rfl⟩
    intro h
    simp at h
  | cons k ks ih =>
    cases k with
    | poll =>
      have hnone : checkAthanTime db nowTime dayIndex serverDate = none :=
        checkAthanTime_none_of_skip hskip
      have hbeq : (checkAthanTime db nowTime dayIndex serverDate == some p) = false := by
        rw [hnone]
        rfl
      have hone' : (ks.filter (fun k => k == CheckKind.server)).length ≤ 1 := by
        rw [List.filter_cons, if_neg (by decide)] at hone
        exact hone
      obtain ⟨ihall, ihin, ihout⟩ := ih hone'
      refine ⟨?_, ?_, ?_⟩
      · intro res hres
        simp only [runTrace, runCheck, hbeq, Bool.false_eq_true, if_false] at hres
        rcases List.mem_cons.mp hres with rfl | hres
        · rfl
        · exact ihall res hres
      · intro hmem
        have hmem' : CheckKind.server ∈ ks := by
          rcases List.mem_cons.mp hmem with h | h
          · exact absurd h (by simp)
          · exact h
        simp only [runTrace, runCheck]
        exact ihin hmem'
      · intro hmem
        have hmem' : CheckKind.server ∉ ks := fun h => hmem (List.mem_cons_of_mem _ h)
        simp only [runTrace, runCheck]
        exact ihout hmem'
    | server =>
      have hauth : playAthanAuth db p dayIndex serverDate =
          (Decision.denyOneShot,
            { skip := 0, last_skipped_prayer := some p, last_skipped_date := some serverDate }) := by
        rw [playAthanAuth, if_neg (by simp [mainPrayers_not_special hcanon]),
          if_neg (by simp [hsched]), if_pos (by simp [hskip])]
      have hstep : runCheck db p nowTime dayIndex serverDate serverDate CheckKind.server =
          (CheckResult.denied,
            { db with skip_next :=
                { skip := 0, last_skipped_prayer := some p,
                  last_skipped_date := some serverDate } }) := by
        rw [runCheck, hauth]
      have hns : CheckKind.server ∉ ks := by
        rw [List.filter_cons, if_pos (by decide), List.length_cons] at hone
        have hzero : (ks.filter (fun k => k == CheckKind.server)).length = 0 := by omega
        intro hmem
        rw [List.length_eq_zero, List.filter_eq_nil_iff] at hzero
        exact hzero CheckKind.server hmem rfl
      have hlast : lastSkippedMatches
          ({ db with skip_next :=
              { skip := 0, last_skipped_prayer := some p,
                last_skipped_date := some serverDate } } : DB).skip_next p serverDate = true := by
        rw [lastSkippedMatches]
        simp
      obtain ⟨call, cdb⟩ := runTrace_consumed hlast hns
      refine ⟨?_, ?_, ?_⟩
      · intro res hres
        simp only [runTrace, hstep] at hres
        rcases List.mem_cons.mp hres with rfl | hres
        · rfl
        · exact call res hres
      · intro _
        simp only [runTrace, hstep]
        exact cdb
      · intro hmem
        exact absurd (List.mem_cons_self _ _) hmem

/-- Witness for the amended C2: a poll, the server firing, then another poll,
with the recorded and compared dates coinciding — all three checks deny, and
the final state records the single consumption. -/
theorem claim2_witness :
    ("Fajr" ∈ mainPrayers ∧ dbArmed.skip_next.skip = 1 ∧
        scheduleDisabled dbArmed.prayer_schedule "Fajr" 0 = false ∧ (0 : Nat) = 0 ∧
        ([CheckKind.poll, CheckKind.server, CheckKind.poll].filter
            (fun k => k == CheckKind.server)).length ≤ 1) ∧
      ((∀ res ∈ (runTrace dbArmed "Fajr" 300 0 0 0
            [CheckKind.poll, CheckKind.server, CheckKind.poll]).1, res = CheckResult.denied)
        ∧ (CheckKind.server ∈ [CheckKind.poll, CheckKind.server, CheckKind.poll] →
            (runTrace dbArmed "Fajr" 300 0 0 0
                [CheckKind.poll, CheckKind.server, CheckKind.poll]).2 =
              { dbArmed with skip_next :=
                  { skip := 0, last_skipped_prayer := some "Fajr",
                    last_skipped_date := some 0 } })
        ∧ (CheckKind.server ∉ [CheckKind.poll, CheckKind.server, CheckKind.poll] →
            (runTrace dbArmed "Fajr" 300 0 0 0
                [CheckKind.poll, CheckKind.server, CheckKind.poll]).2 = dbArmed)) :=
  ⟨⟨by decide, rfl, rfl, rfl, by decide⟩,
    claim2_one_shot dbArmed "Fajr" 300 0 0 0 [CheckKind.poll, CheckKind.server, CheckKind.poll]
      (by decide) rfl rfl rfl (by decide)⟩

/-- Counterexample to C2 as stated, in two parts.  First: the first
authorization check of the window is a client poll landing at the prayer's
exact minute; it denies, but it does not clear the one-shot flag and records
nothing — "the first check consumes" fails, since only the server-side firing
consumes.  Second: the two paths date their windows differently — `playAthan`
records the UTC date of `toISOString` while `check-athan-time` compares the
local date of `formatDateLocal` — so in an east-of-UTC deployment with Fajr
at 05:00 on local day 1 (UTC date still day 0 at fire time), the firing
consumes the flag recording day 0, and a poll moments later in the same
window finds the flag clear and the last-skipped date mismatching and is told
to play: "no check in the window returns Allow" also fails. -/
theorem claim2_counterexample :
    ((runTrace dbArmed "Fajr" 300 0 0 0 [CheckKind.poll]).1 = [CheckResult.denied] ∧
      (runTrace dbArmed "Fajr" 300 0 0 0 [CheckKind.poll]).2.skip_next.skip = 1 ∧
      (runTrace dbArmed "Fajr" 300 0 0 0
          [CheckKind.poll]).2.skip_next.last_skipped_prayer = none) ∧
    (runTrace dbBoundary "Fajr" 300 0 0 1 [CheckKind.server, CheckKind.poll]).1 =
      [CheckResult.denied, CheckResult.allowed] :=
  ⟨⟨rfl, rfl, rfl⟩, rfl⟩

/-- Claim C3: the resolver's fire-window predicate (`check-athan-time`) can
report shouldPlay for a prayer only when now is at or after that prayer's time
and no more than one minute after it; at any instant strictly before the event
time or strictly beyond the tolerance it reports false for that prayer. -/
theorem claim3_fire_window (db : DB) (nowTime dayIndex currentDate : Nat) (p : String) :
    (checkAthanTime db nowTime dayIndex currentDate = some p →
      ∃ r ∈ db.prayers, r.date = currentDate ∧ r.prayer_name = p ∧ p ∈ mainPrayers ∧
        0 ≤ (nowTime : Int) - (r.prayer_time : Int) ∧
        (nowTime : Int) - (r.prayer_time : Int) ≤ 1)
    ∧ (∀ t : Nat,
        (∀ r ∈ db.prayers, r.date = currentDate → r.prayer_name = p → r.prayer_time = t) →
        ((nowTime : Int) - (t : Int) < 0 ∨ 1 < (nowTime : Int) - (t : Int)) →
        checkAthanTime db nowTime dayIndex currentDate ≠ some p) := by
  constructor
  · intro h
    obtain ⟨r, hmem, hdate, hname, hcanon, hwin, _⟩ := checkAthanTime_sound h
    rw [inWindow, Bool.and_eq_true, decide_eq_true_eq, decide_eq_true_eq] at hwin
    exact ⟨r, hmem, hdate, hname, hcanon, hwin.1, hwin.2⟩
  · intro t huniq hout h
    obtain ⟨r, hmem, hdate, hname, _, hwin, _⟩ := checkAthanTime_sound h
    rw [inWindow, Bool.and_eq_true, decide_eq_true_eq, decide_eq_true_eq] at hwin
    have ht := huniq r hmem hdate hname
    subst ht
    rcases hout with hout | hout <;> omega

/-- Witness for C3 at a concrete state: at 06:30 sharp the endpoint reports
Fajr, and Fajr is indeed inside the one-minute fire window. -/
theorem claim3_witness :
    checkAthanTime dbPlain 390 0 0 = some "Fajr" ∧
      ∃ r ∈ dbPlain.prayers, r.date = 0 ∧ r.prayer_name = "Fajr" ∧ "Fajr" ∈ mainPrayers ∧
        0 ≤ (390 : Int) - (r.prayer_time : Int) ∧ (390 : Int) - (r.prayer_time : Int) ≤ 1 :=
  ⟨rfl, (claim3_fire_window dbPlain 390 0 0 "Fajr").1 rfl⟩

/-- Claim C5: when the calendar fetch of the external source fails,
`fetchPrayerTimes` reports failure and the stored `prayers` table is left
completely unchanged. -/
theorem claim5_fetch_failure (tbl : List PrayerRow) (todayD threeMonthsD : Nat) (msg : String) :
    fetchPrayerTimes tbl todayD threeMonthsD (Except.error msg) = (false, tbl) := rfl

/-- Claim C6: `nextUpcoming` returns an earliest strictly-future canonical
prayer of today; when none remain today, an earliest canonical prayer of
tomorrow; and null exactly when neither exists. -/
theorem claim6_next_upcoming (db : DB) (today tomorrow nowTime : Nat) :
    (∀ r, nextUpcoming db today tomorrow nowTime = some r →
      (r ∈ todayFutureList db today nowTime ∧
        ∀ s ∈ todayFutureList db today nowTime, r.prayer_time ≤ s.prayer_time) ∨
      (todayFutureList db today nowTime = [] ∧ r ∈ tomorrowList db tomorrow ∧
        ∀ s ∈ tomorrowList db tomorrow, r.prayer_time ≤ s.prayer_time))
    ∧ (nextUpcoming db today tomorrow nowTime = none ↔
        todayFutureList db today nowTime = [] ∧ tomorrowList db tomorrow = []) := by
  constructor
  · intro r h
    rw [nextUpcoming] at h
    split at h
    · next m heq =>
      injection h with h
      subst h
      exact Or.inl ⟨minByTime_mem heq, minByTime_le heq⟩
    · next heq =>
      exact Or.inr ⟨minByTime_eq_none.mp heq, minByTime_mem h, minByTime_le h⟩
  · rw [nextUpcoming]
    constructor
    · intro h
      split at h
      · simp at h
      · next heq => exact ⟨minByTime_eq_none.mp heq, minByTime_eq_none.mp h⟩
    · intro h
      obtain ⟨h1, h2⟩ := h
      rw [minByTime_eq_none.mpr h1]
      exact minByTime_eq_none.mpr h2

/-- Witness for C6 at the spec's scenario state: at 06:00 with Fajr 06:30 and
Dhuhr 12:45 on the calendar, `nextUpcoming` returns Fajr 06:30 and Fajr is a
minimal strictly-future prayer of today. -/
theorem claim6_witness :
    nextUpcoming dbPlain 0 1 360 = some ⟨0, "Fajr", 390⟩ ∧
      (((⟨0, "Fajr", 390⟩ : PrayerRow) ∈ todayFutureList dbPlain 0 360 ∧
          ∀ s ∈ todayFutureList dbPlain 0 360,
            (⟨0, "Fajr", 390⟩ : PrayerRow).prayer_time ≤ s.prayer_time) ∨
        (todayFutureList dbPlain 0 360 = [] ∧
          (⟨0, "Fajr", 390⟩ : PrayerRow) ∈ tomorrowList dbPlain 1 ∧
          ∀ s ∈ tomorrowList dbPlain 1,
            (⟨0, "Fajr", 390⟩ : PrayerRow).prayer_time ≤ s.prayer_time)) :=
  ⟨rfl, (claim6_next_upcoming dbPlain 0 1 360).1 ⟨0, "Fajr", 390⟩ rfl⟩

/-- Claim C7: the simple per-prayer enabled view reports 1 exactly when all of
that prayer's weekday cells are enabled; disabling any single weekday cell
makes it report 0, and re-enabling that cell (the other days being enabled)
makes it report 1 again. -/
theorem claim7_enabled_view (sched : List ScheduleCell) (p : String)
    (h01 : ∀ c ∈ sched, c.enabled = 0 ∨ c.enabled = 1) :
    (prayerEnabledView sched p = 1 ↔ ∀ c ∈ sched, c.prayer_name = p → c.enabled = 1)
    ∧ (∀ d, (∃ c ∈ sched, c.prayer_name = p ∧ c.day_of_week = d) →
        prayerEnabledView (setCell sched p d 0) p = 0)
    ∧ (∀ d, (∀ c ∈ sched, c.prayer_name = p → c.day_of_week ≠ d → c.enabled = 1) →
        prayerEnabledView (setCell sched p d 1) p = 1) := by
  have hcount : ∀ (l : List ScheduleCell),
      disabledCount l p = 0 ↔ ∀ c ∈ l, c.prayer_name = p → c.enabled ≠ 0 := by
    intro l
    rw [disabledCount, List.length_eq_zero, List.filter_eq_nil_iff]
    constructor
    · intro h c hc hname
      have := h c hc
      simp only [Bool.and_eq_true, beq_iff_eq, not_and] at this
      exact this hname
    · intro h c hc
      simp only [Bool.and_eq_true, beq_iff_eq, not_and]
      exact h c hc
  refine ⟨?_, ?_, ?_⟩
  · rw [prayerEnabledView]
    constructor
    · intro h c hc hname
      by_cases hz : (disabledCount sched p == 0) = true
      · have hz' : disabledCount sched p = 0 := by rwa [beq_iff_eq] at hz
        have := (hcount sched).mp hz' c hc hname
        rcases h01 c hc with h0 | h1
        · exact absurd h0 this
        · exact h1
      · rw [if_neg hz] at h
        exact absurd h (by simp)
    · intro h
      rw [if_pos]
      rw [beq_iff_eq]
      exact (hcount sched).mpr (fun c hc hname => by rw [h c hc hname]; simp)
  · intro d hex
    obtain ⟨c, hc, hname, hday⟩ := hex
    rw [prayerEnabledView, if_neg]
    rw [beq_iff_eq]
    intro hzero
    have hmem : ({ c with enabled := 0 } : ScheduleCell) ∈ setCell sched p d 0 := by
      rw [setCell]
      have heq : (fun x : ScheduleCell =>
          if x.prayer_name == p && x.day_of_week == d then { x with enabled := 0 } else x) c =
          { c with enabled := 0 } := by
        simp [hname, hday]
      exact heq ▸ List.mem_map_of_mem _ hc
    have := (hcount (setCell sched p d 0)).mp hzero _ hmem (by simp [hname])
    exact this rfl
  · intro d hall
    rw [prayerEnabledView, if_pos]
    rw [beq_iff_eq]
    refine (hcount (setCell sched p d 1)).mpr ?_
    intro c hc hname
    rw [setCell] at hc
    obtain ⟨c0, hc0, hc0eq⟩ := List.mem_map.mp hc
    by_cases hmatch : (c0.prayer_name == p && c0.day_of_week == d) = true
    · rw [if_pos hmatch] at hc0eq
      rw [← hc0eq]
      simp
    · rw [if_neg hmatch] at hc0eq
      rw [← hc0eq] at hname ⊢
      simp only [Bool.and_eq_true, beq_iff_eq, not_and] at hmatch
      rcases Decidable.em (c0.day_of_week = d) with hd | hd
      · exact absurd hd (hmatch hname)
      · rw [hall c0 hc0 hname hd]
        simp

/-- Witness for C7 at the concrete fully-enabled matrix and prayer Fajr. -/
theorem claim7_witness :
    (∀ c ∈ fullSchedule, c.enabled = 0 ∨ c.enabled = 1) ∧
      ((prayerEnabledView fullSchedule "Fajr" = 1 ↔
          ∀ c ∈ fullSchedule, c.prayer_name = "Fajr" → c.enabled = 1)
        ∧ (∀ d, (∃ c ∈ fullSchedule, c.prayer_name = "Fajr" ∧ c.day_of_week = d) →
            prayerEnabledView (setCell fullSchedule "Fajr" d 0) "Fajr" = 0)
        ∧ (∀ d, (∀ c ∈ fullSchedule, c.prayer_name = "Fajr" → c.day_of_week ≠ d → c.enabled = 1) →
            prayerEnabledView (setCell fullSchedule "Fajr" d 1) "Fajr" = 1)) :=
  ⟨by decide, claim7_enabled_view fullSchedule "Fajr" (by decide)⟩

/-- Claim C8: one step of the drift monitor re-arms the Trigger Scheduler from
the current calendar exactly when the drift magnitude exceeds half of one
polling window (5000 ms of the 10000 ms window), and leaves the armed triggers
alone when the drift is within the threshold. -/
theorem claim8_drift_monitor (last nowMs : Int) (jobs : List PrayerRow) (db : DB)
    (today tomorrow nowInstant : Nat) :
    driftThresholdMs = expectedElapsedMs / 2
    ∧ (|nowMs - last - expectedElapsedMs| > driftThresholdMs →
        driftMonitorStep last nowMs jobs db today tomorrow nowInstant =
          (rearm jobs db today tomorrow nowInstant, nowMs))
    ∧ (|nowMs - last - expectedElapsedMs| ≤ driftThresholdMs →
        driftMonitorStep last nowMs jobs db today tomorrow nowInstant = (jobs, nowMs)) := by
  refine ⟨by decide, ?_, ?_⟩
  · intro h
    simp only [driftMonitorStep]
    rw [if_pos h]
  · intro h
    simp only [driftMonitorStep]
    rw [if_neg (not_lt.mpr h)]

/-- Witness for C8: a 10-second clock jump (20000 ms elapsed instead of
10000 ms) exceeds the threshold and re-arms from the current calendar. -/
theorem claim8_witness :
    |(20000 : Int) - 0 - expectedElapsedMs| > driftThresholdMs ∧
      driftMonitorStep 0 20000 [] dbPlain 0 1 0 = (rearm [] dbPlain 0 1 0, 20000) :=
  ⟨by decide, (claim8_drift_monitor 0 20000 [] dbPlain 0 1 0).2.1 (by decide)⟩

theorem contains_eq_true_of_mem {p : String} {l : List String} (h : p ∈ l) :
    l.contains p = true := by
  rw [List.contains]
  exact List.elem_iff.mpr h

theorem countKey_eq_zero {l : List PrayerRow} {d : Nat} {p : String}
    (h : ∀ x ∈ l, ¬(x.date = d ∧ x.prayer_name = p)) : countKey l d p = 0 := by
  rw [countKey, List.length_eq_zero, List.filter_eq_nil_iff]
  intro x hx
  simp only [keyMatches, Bool.and_eq_true, beq_iff_eq]
  exact h x hx

theorem countKey_filter_of_unique {l : List PrayerRow} {Q : PrayerRow → Bool} {r : PrayerRow}
    (hu : distinctKeys l) (hr : r ∈ l) :
    countKey (l.filter Q) r.date r.prayer_name = if Q r = true then 1 else 0 := by
  induction l with
  | nil => simp at hr
  | cons a t ih =>
    rw [distinctKeys, List.pairwise_cons] at hu
    obtain ⟨ha, hu'⟩ := hu
    rcases List.mem_cons.mp hr with rfl | hr
    · have hzero : countKey (t.filter Q) r.date r.prayer_name = 0 := by
        apply countKey_eq_zero
        intro x hx hc
        exact ha x (List.mem_filter.mp hx).1 ⟨hc.1.symm, hc.2.symm⟩
      rw [List.filter_cons]
      by_cases hq : Q r = true
      · rw [if_pos hq, if_pos hq]
        rw [countKey, List.filter_cons, if_pos (by simp [keyMatches]), List.length_cons]
        rw [countKey] at hzero
        rw [hzero]
      · rw [if_neg hq, if_neg hq]
        exact hzero
    · rw [List.filter_cons]
      have hkey : ¬(keyMatches r.date r.prayer_name a = true) := by
        simp only [keyMatches, Bool.and_eq_true, beq_iff_eq, not_and]
        intro hd hn
        exact ha r hr ⟨hd, hn⟩
      by_cases hq : Q a = true
      · rw [if_pos hq]
        rw [countKey, List.filter_cons, if_neg hkey]
        exact ih hu' hr
      · rw [if_neg hq]
        exact ih hu' hr

/-- Claim C4: after a rearm, exactly one armed trigger exists per canonical
(date, prayer) pair of today/tomorrow whose fire instant is strictly after
now at arm time, zero triggers exist for pairs whose instant has passed,
every armed trigger is strictly future, and because all previously armed
triggers are cancelled first a second rearm with the same calendar yields the
same firing schedule. -/
theorem claim4_rearm (oldJobs : List PrayerRow) (db : DB) (today tomorrow nowInstant : Nat)
    (huniq : distinctKeys db.prayers) :
    (∀ r ∈ db.prayers, (r.date = today ∨ r.date = tomorrow) → r.prayer_name ∈ mainPrayers →
        nowInstant < instantOf r →
        countKey (rearm oldJobs db today tomorrow nowInstant) r.date r.prayer_name = 1)
    ∧ (∀ r ∈ db.prayers, ¬ nowInstant < instantOf r →
        countKey (rearm oldJobs db today tomorrow nowInstant) r.date r.prayer_name = 0)
    ∧ (∀ j ∈ rearm oldJobs db today tomorrow nowInstant, nowInstant < instantOf j)
    ∧ rearm (rearm oldJobs db today tomorrow nowInstant) db today tomorrow nowInstant =
        rearm oldJobs db today tomorrow nowInstant := by
  have hfilter : rearm oldJobs db today tomorrow nowInstant = db.prayers.filter
      (fun r => decide (nowInstant < instantOf r) &&
        ((r.date == today || r.date == tomorrow) && mainPrayers.contains r.prayer_name)) := by
    rw [rearm, List.filter_filter]
  refine ⟨?_, ?_, ?_, rfl⟩
  · intro r hr hd hcanon hfut
    rw [hfilter, countKey_filter_of_unique huniq hr, if_pos]
    simp only [Bool.and_eq_true, Bool.or_eq_true, beq_iff_eq, decide_eq_true_eq]
    refine ⟨hfut, hd, contains_eq_true_of_mem hcanon⟩
  · intro r hr hnf
    rw [hfilter, countKey_filter_of_unique huniq hr, if_neg]
    simp only [Bool.and_eq_true, decide_eq_true_eq, not_and]
    intro hfut
    exact absurd hfut hnf
  · intro j hj
    rw [rearm] at hj
    have := (List.mem_filter.mp hj).2
    rwa [decide_eq_true_eq] at this

/-- Witness for C4 at the concrete calendar, armed at instant 400 of day 0:
Fajr 06:30 today has passed, Dhuhr today and Fajr tomorrow are future. -/
theorem claim4_witness :
    distinctKeys dbPlain.prayers ∧
      ((∀ r ∈ dbPlain.prayers, (r.date = 0 ∨ r.date = 1) → r.prayer_name ∈ mainPrayers →
          400 < instantOf r → countKey (rearm [] dbPlain 0 1 400) r.date r.prayer_name = 1)
        ∧ (∀ r ∈ dbPlain.prayers, ¬ 400 < instantOf r →
            countKey (rearm [] dbPlain 0 1 400) r.date r.prayer_name = 0)
        ∧ (∀ j ∈ rearm [] dbPlain 0 1 400, 400 < instantOf j)
        ∧ rearm (rearm [] dbPlain 0 1 400) dbPlain 0 1 400 = rearm [] dbPlain 0 1 400) :=
  ⟨by decide, claim4_rearm [] dbPlain 0 1 400 (by decide)⟩

theorem checkLoop_congr (db1 db2 : DB) (hs : db1.prayer_schedule = db2.prayer_schedule)
    (hk : db1.skip_next = db2.skip_next) (nowTime dayIndex currentDate : Nat) :
    ∀ l, checkLoop db1 nowTime dayIndex currentDate l =
      checkLoop db2 nowTime dayIndex currentDate l := by
  intro l
  induction l with
  | nil => rfl
  | cons r rest ih =>
    rw [checkLoop, checkLoop, hs, hk, ih]

/-- Claim C9: the `muted_weekdays` flags never influence playback
authorization: two persisted states that differ only in the weekday-mute
table yield identical `playAthan` play-or-skip outcomes (including the
consumption bookkeeping) and identical `check-athan-time` answers, for every
prayer, weekday index, date and instant. -/
theorem claim9_weekday_mute_noninterference (db1 db2 : DB)
    (hp : db1.prayers = db2.prayers)
    (hs : db1.prayer_schedule = db2.prayer_schedule)
    (hk : db1.skip_next = db2.skip_next)
    (ha : db1.audio_output = db2.audio_output) :
    (∀ p dayIndex currentDate,
        playAthanRun db1 p dayIndex currentDate = playAthanRun db2 p dayIndex currentDate)
    ∧ (∀ nowTime dayIndex currentDate,
        checkAthanTime db1 nowTime dayIndex currentDate =
          checkAthanTime db2 nowTime dayIndex currentDate) := by
  obtain ⟨p1, s1, k1, m1, a1⟩ := db1
  obtain ⟨p2, s2, k2, m2, a2⟩ := db2
  have hp' : p1 = p2 := hp
  have hs' : s1 = s2 := hs
  have hk' : k1 = k2 := hk
  have ha' : a1 = a2 := ha
  subst hp'
  subst hs'
  subst hk'
  subst ha'
  refine ⟨fun _ _ _ => rfl, fun nowTime dayIndex currentDate => ?_⟩
  rw [checkAthanTime, checkAthanTime]
  by_cases haud : ((DB.mk p1 s1 k1 m1 a1).audio_output == "server") = true
  · rw [if_pos haud, if_pos haud]
  · rw [if_neg haud, if_neg haud]
    exact checkLoop_congr (DB.mk p1 s1 k1 m1 a1) (DB.mk p1 s1 k1 m2 a1) rfl rfl
      nowTime dayIndex currentDate _

/-- Witness for C9: the plain state and the same state with every weekday
muted produce identical authorization outcomes. -/
theorem claim9_witness :
    (dbPlain.prayers = dbPlainMuted.prayers ∧
        dbPlain.prayer_schedule = dbPlainMuted.prayer_schedule ∧
        dbPlain.skip_next = dbPlainMuted.skip_next ∧
        dbPlain.audio_output = dbPlainMuted.audio_output) ∧
      ((∀ p dayIndex currentDate,
          playAthanRun dbPlain p dayIndex currentDate =
            playAthanRun dbPlainMuted p dayIndex currentDate)
        ∧ (∀ nowTime dayIndex currentDate,
            checkAthanTime dbPlain nowTime dayIndex currentDate =
              checkAthanTime dbPlainMuted nowTime dayIndex currentDate)) :=
  ⟨⟨rfl, rfl, rfl, rfl⟩,
    claim9_weekday_mute_noninterference dbPlain dbPlainMuted rfl rfl rfl rfl⟩

theorem mem_mainPrayers_of_todayFuture {db : DB} {today nowTime : Nat} {r : PrayerRow}
    (h : r ∈ todayFutureList db today nowTime) : r.prayer_name ∈ mainPrayers := by
  rw [todayFutureList, List.mem_filter] at h
  have hpred := h.2
  simp only [Bool.and_eq_true] at hpred
  have hc := hpred.2
  rw [List.contains] at hc
  exact List.elem_iff.mp hc

theorem mem_mainPrayers_of_tomorrow {db : DB} {tomorrow : Nat} {r : PrayerRow}
    (h : r ∈ tomorrowList db tomorrow) : r.prayer_name ∈ mainPrayers := by
  rw [tomorrowList, List.mem_filter] at h
  have hpred := h.2
  simp only [Bool.and_eq_true] at hpred
  have hc := hpred.2
  rw [List.contains] at hc
  exact List.elem_iff.mp hc

theorem disabledCount_countP (db : DB) (q : String) :
    disabledCount db.prayer_schedule q =
      (cellsFor db.prayer_schedule q).countP (fun c => c.enabled == 0) := by
  rw [List.countP_eq_length_filter, cellsFor, List.filter_filter, disabledCount]
  congr 1
  apply List.filter_congr
  intro c _
  rw [Bool.and_comm]

/-- Claim C10: the skip-next operation rejects (leaving the one-shot flag
unchanged) exactly when the next upcoming canonical prayer is disabled on all
7 weekday cells of the schedule matrix; otherwise — including when the prayer
is disabled on only some weekdays, or when no next prayer exists at all — it
sets the flag. -/
theorem claim10_skip_next (db : DB) (today tomorrow nowTime : Nat)
    (hwf : ∀ q ∈ mainPrayers, (cellsFor db.prayer_schedule q).length = 7) :
    (∀ r, nextUpcoming db today tomorrow nowTime = some r →
      ((∀ c ∈ cellsFor db.prayer_schedule r.prayer_name, c.enabled = 0) →
        skipNextEndpoint db today tomorrow nowTime = (false, db))
      ∧ ((∃ c ∈ cellsFor db.prayer_schedule r.prayer_name, c.enabled ≠ 0) →
        skipNextEndpoint db today tomorrow nowTime = (true, setSkipFlag db)))
    ∧ (nextUpcoming db today tomorrow nowTime = none →
        skipNextEndpoint db today tomorrow nowTime = (true, setSkipFlag db)) := by
  have key : ∀ q, q ∈ mainPrayers →
      ((∀ c ∈ cellsFor db.prayer_schedule q, c.enabled = 0) →
        (disabledCount db.prayer_schedule q == 7) = true)
      ∧ ((∃ c ∈ cellsFor db.prayer_schedule q, c.enabled ≠ 0) →
        (disabledCount db.prayer_schedule q == 7) = false) := by
    intro q hq
    have hlen := hwf q hq
    constructor
    · intro hall
      rw [beq_iff_eq, disabledCount_countP, ← hlen]
      apply List.countP_eq_length.mpr
      intro c hc
      simp [hall c hc]
    · intro hex
      obtain ⟨c, hc, hcen⟩ := hex
      rw [beq_eq_false_iff_ne, disabledCount_countP]
      intro heq
      have hall := List.countP_eq_length.mp (by rw [heq, hlen])
      have := hall c hc
      simp only [beq_iff_eq] at this
      exact hcen this
  constructor
  · intro r hr
    rw [nextUpcoming] at hr
    split at hr
    · next m heq =>
      injection hr with hr
      subst hr
      have hcanon : m.prayer_name ∈ mainPrayers :=
        mem_mainPrayers_of_todayFuture (minByTime_mem heq)
      constructor
      · intro hall
        rw [skipNextEndpoint, heq]
        show (if (disabledCount db.prayer_schedule m.prayer_name == 7) = true then (false, db)
          else (true, setSkipFlag db)) = (false, db)
        rw [if_pos ((key m.prayer_name hcanon).1 hall)]
      · intro hex
        rw [skipNextEndpoint, heq]
        show (if (disabledCount db.prayer_schedule m.prayer_name == 7) = true then (false, db)
          else (true, setSkipFlag db)) = (true, setSkipFlag db)
        rw [if_neg (by simp [(key m.prayer_name hcanon).2 hex])]
    · next heq =>
      have hcanon : r.prayer_name ∈ mainPrayers :=
        mem_mainPrayers_of_tomorrow (minByTime_mem hr)
      constructor
      · intro hall
        rw [skipNextEndpoint, heq, hr]
        show (if (disabledCount db.prayer_schedule r.prayer_name == 7) = true then (false, db)
          else (true, setSkipFlag db)) = (false, db)
        rw [if_pos ((key r.prayer_name hcanon).1 hall)]
      · intro hex
        rw [skipNextEndpoint, heq, hr]
        show (if (disabledCount db.prayer_schedule r.prayer_name == 7) = true then (false, db)
          else (true, setSkipFlag db)) = (true, setSkipFlag db)
        rw [if_neg (by simp [(key r.prayer_name hcanon).2 hex])]
  · intro h
    rw [nextUpcoming] at h
    split at h
    · simp at h
    · next heq =>
      rw [skipNextEndpoint, heq, h]

/-- Witness for C10 at the concrete fully-enabled state: Fajr is enabled, so
the skip-next operation sets the flag. -/
theorem claim10_witness :
    (∀ q ∈ mainPrayers, (cellsFor dbPlain.prayer_schedule q).length = 7) ∧
      ((∀ r, nextUpcoming dbPlain 0 1 360 = some r →
        ((∀ c ∈ cellsFor dbPlain.prayer_schedule r.prayer_name, c.enabled = 0) →
          skipNextEndpoint dbPlain 0 1 360 = (false, dbPlain))
        ∧ ((∃ c ∈ cellsFor dbPlain.prayer_schedule r.prayer_name, c.enabled ≠ 0) →
          skipNextEndpoint dbPlain 0 1 360 = (true, setSkipFlag dbPlain)))
      ∧ (nextUpcoming dbPlain 0 1 360 = none →
          skipNextEndpoint dbPlain 0 1 360 = (true, setSkipFlag dbPlain))) :=
  ⟨by decide, claim10_skip_next dbPlain 0 1 360 (by decide)⟩

end AthanCenter
